import Mathlib

/-!
# Verification of the go2v toolchain installer

A shallow embedding of the version-resolution, archive-extraction and
PATH-configuration logic of the installer (package `main`), together with
theorems checking the natural-language specification against it.

Go strings are modelled as Lean `String` (a structure over `List Char`),
and the handful of `strings` / `path/filepath` standard-library operations
the program uses (`HasPrefix`, `Contains`, `TrimPrefix`, `Count`, `Split`,
`Join`, `Clean`, `ToLower`) are re-implemented here as structurally
recursive functions over `String.data`, so that every definition is
executable and every concrete instance can be settled by `decide`.
-/

namespace Go2V

/-! ## Character-list string primitives (models of Go `strings` functions) -/

/-- Model of the prefix test underlying Go `strings.HasPrefix`:
`listStartsWith pre s` is true iff `pre` is an initial segment of `s`. -/
def listStartsWith : List Char → List Char → Bool
  | [], _ => true
  | _ :: _, [] => false
  | a :: as, b :: bs => a == b && listStartsWith as bs

/-- Model of the substring test underlying Go `strings.Contains`:
true iff `needle` occurs contiguously inside `hay`. -/
def listContainsSub (needle : List Char) : List Char → Bool
  | [] => listStartsWith needle []
  | b :: tl => listStartsWith needle (b :: tl) || listContainsSub needle tl

/-- Go `strings.HasPrefix(s, pre)`. -/
def goStartsWith (s pre : String) : Bool :=
  listStartsWith pre.data s.data

/-- Go `strings.Contains(s, sub)`. -/
def goContains (s sub : String) : Bool :=
  listContainsSub sub.data s.data

/-- Go `strings.TrimPrefix(s, pre)`: drops `pre` when it is a prefix,
returns `s` unchanged otherwise. -/
def goTrimLeading (s pre : String) : String :=
  if goStartsWith s pre then ⟨s.data.drop pre.data.length⟩ else s

/-- Go `strings.Count(s, ".")`: number of occurrences of the dot
character (for a one-character pattern, occurrences cannot overlap). -/
def countDot (s : String) : Nat :=
  s.data.count '.'

/-- Go `strings.ToLower` restricted to the ASCII range (the alias table in
`mapArchitecture` only compares against ASCII literals). -/
def goToLower (s : String) : String :=
  ⟨s.data.map Char.toLower⟩

/-! ## `mapArchitecture` (source: `mapArchitecture` in main.go)

```go
func mapArchitecture(detectedArch string) string {
    lowerArch := strings.ToLower(detectedArch)
    var goArch string
    switch lowerArch {
    case "x86_64", "amd64": goArch = "amd64"
    case "aarch64", "arm64": goArch = "arm64"
    case "i386", "i686": goArch = "386"
    case "armv6l", "armv7l": goArch = "arm"
    case "ppc64le": goArch = "ppc64le"
    case "s390x": goArch = "s390x"
    default: goArch = detectedArch
    }
    return goArch
}
```
-/

/-- The alias strings recognised by the `switch` in `mapArchitecture`. -/
def knownArchAliases : List String :=
  ["x86_64", "amd64", "aarch64", "arm64", "i386", "i686",
   "armv6l", "armv7l", "ppc64le", "s390x"]

/-- Model of `mapArchitecture`: lower-case the detected architecture
(the source binds it once as `lowerArch`), dispatch on the alias table,
and fall through to the original (un-lowered) input in the `default`
branch. -/
def mapArchitecture (detectedArch : String) : String :=
  if goToLower detectedArch = "x86_64" ∨ goToLower detectedArch = "amd64" then
    "amd64"
  else if goToLower detectedArch = "aarch64" ∨ goToLower detectedArch = "arm64" then
    "arm64"
  else if goToLower detectedArch = "i386" ∨ goToLower detectedArch = "i686" then
    "386"
  else if goToLower detectedArch = "armv6l" ∨ goToLower detectedArch = "armv7l" then
    "arm"
  else if goToLower detectedArch = "ppc64le" then "ppc64le"
  else if goToLower detectedArch = "s390x" then "s390x"
  else detectedArch

/-- Model of the guard in `main` that aborts when the mapped architecture
is empty (`if goArch == "" { os.Exit(1) }`). -/
def mainArchAbort (detectedArch : String) : Bool :=
  mapArchitecture detectedArch == ""

/-! ## Path model (`path/filepath` on Linux, separator `/`)

`extractTarGz` computes `target := filepath.Join(destDir, header.Name)`
and checks `strings.HasPrefix(target, destDir+string(os.PathSeparator))`.
`filepath.Join` joins the non-empty operands with `/` and then applies
`filepath.Clean`, which resolves `.` and `..` components lexically. -/

/-- Split a character list at every `/` (the component walk of
`filepath.Clean`, written as a split in this model). -/
def splitSlashAux : List Char → List Char → List (List Char)
  | [], cur => [cur.reverse]
  | c :: rest, cur =>
    if c = '/' then cur.reverse :: splitSlashAux rest []
    else splitSlashAux rest (c :: cur)

/-- Rejoin cleaned components with `/`. -/
def joinSlash : List (List Char) → List Char
  | [] => []
  | [c] => c
  | c :: rest => c ++ '/' :: joinSlash rest

/-- The component loop of `filepath.Clean` (Unix rules), with the output
kept as a reversed stack: empty and `.` components are dropped; `..` pops
the last real component, is dropped at the root when the path is rooted,
and accumulates at the front when the path is relative. -/
def cleanLoop (rooted : Bool) : List (List Char) → List (List Char) → List (List Char)
  | [], acc => acc
  | c :: rest, acc =>
    if c = [] ∨ c = ['.'] then cleanLoop rooted rest acc
    else if c = ['.', '.'] then
      match acc with
      | [] => if rooted then cleanLoop rooted rest []
              else cleanLoop rooted rest [['.', '.']]
      | a :: as =>
        if !rooted ∧ a = ['.', '.'] then
          cleanLoop rooted rest (['.', '.'] :: a :: as)
        else cleanLoop rooted rest as
    else cleanLoop rooted rest (c :: acc)

/-- Model of `filepath.Clean` for Unix paths. -/
def goClean (p : String) : String :=
  if p = "" then "."
  else
    let rooted := goStartsWith p "/"
    let comps := cleanLoop rooted (splitSlashAux p.data []) []
    let out := joinSlash comps.reverse
    if rooted then ⟨'/' :: out⟩
    else if out = [] then "." else ⟨out⟩

/-- Model of two-argument `filepath.Join`: empty operands are skipped
and the result is cleaned; joining two empty strings gives the empty
string. -/
def goJoin (a b : String) : String :=
  if a = "" ∧ b = "" then ""
  else if a = "" then goClean b
  else if b = "" then goClean a
  else goClean (a ++ "/" ++ b)

/-! ## `extractTarGz` (source: `extractTarGz` in main.go)

The archive is modelled as the list of tar headers the reader yields, and
the filesystem effects of extraction are recorded explicitly.  I/O
failures (open, gzip, read, mkdir, chmod, write) are outside the model:
in the source any of them aborts extraction immediately with the error,
so the model captures exactly the logic that chooses between the
path-traversal error, a directory effect, a file effect and a silent
skip. `os.MkdirAll` of a target inside the destination is recorded as a
single directory-creation effect at the target. -/

/-- Tar entry types distinguished by the `switch header.Typeflag`:
`tar.TypeDir`, `tar.TypeReg`, and everything else. -/
inductive TarTypeFlag where
  | dir
  | reg
  | other
deriving DecidableEq

/-- The fields of `tar.Header` the extractor reads. -/
structure TarHeader where
  name : String
  typeflag : TarTypeFlag
  mode : Nat
deriving DecidableEq

/-- A filesystem effect performed by extraction. -/
inductive FSEffect where
  | mkdirAll (path : String) (mode : Nat)
  | chmod (path : String) (mode : Nat)
  | writeFile (path : String) (mode : Nat)
deriving DecidableEq

/-- The path an effect touches. -/
def FSEffect.path : FSEffect → String
  | .mkdirAll p _ => p
  | .chmod p _ => p
  | .writeFile p _ => p

/-- Prepend one effect to an extraction outcome, keeping its result. -/
def prependEff (eff : FSEffect) (p : List FSEffect × Option String) :
    List FSEffect × Option String :=
  (eff :: p.1, p.2)

/-- Model of `extractTarGz(filePath, destDir)`: walk the entries in
order; for each, compute `target = Join(destDir, name)`, fail with the
`illegal file path` error unless `target` has `destDir + "/"` as a
prefix, then create a directory (or re-`chmod` an existing path), write
a regular file, or silently skip any other entry type.  `existing`
models which paths `os.Stat` finds (pre-existing plus those created by
earlier entries); the second component is `none` on success and
`some msg` when extraction aborted with an error. -/
def extractTarGz (entries : List TarHeader) (destDir : String)
    (existing : List String) : List FSEffect × Option String :=
  match entries with
  | [] => ([], none)
  | h :: rest =>
    let target := goJoin destDir h.name
    if goStartsWith target (destDir ++ "/") then
      match h.typeflag with
      | .dir =>
        if existing.contains target then
          prependEff (.chmod target h.mode) (extractTarGz rest destDir existing)
        else
          prependEff (.mkdirAll target h.mode)
            (extractTarGz rest destDir (target :: existing))
      | .reg =>
        prependEff (.writeFile target h.mode)
          (extractTarGz rest destDir (target :: existing))
      | .other => extractTarGz rest destDir existing
    else
      ([], some ("illegal file path: " ++ target))

/-! ## Version catalog and resolver (source: `GoVersionInfo`,
`getAllGoVersions`, and the resolution logic inline in `main`)

The catalog fetched from the JSON API is modelled as
`Option (List GoVersionInfo)` — `none` is `allVersions == nil` after a
failed fetch (main only warns and continues in that case).  The result
of `getLatestGoVersionFromTextHTTP` is likewise `Option String`: `some
version` on success, `none` on any error.  `ResolveResult.fatal` models
`os.Exit(1)` after the `Error:` diagnostic on stderr, and the
`usedTextFallback` flag records whether the plaintext endpoint's answer
was used. -/

/-- One element of `GoVersionInfo.Files`. -/
structure GoFile where
  filename : String
  os : String
  arch : String
  checksum : String
  size : Int
  kind : String
deriving DecidableEq

/-- One entry of the JSON catalog (`GoVersionInfo`). -/
structure GoVersionInfo where
  version : String
  stable : Bool
  files : List GoFile
deriving DecidableEq

/-- The per-file condition of both search loops in `main`:
`file.OS == runtime.GOOS && file.Arch == goArch && file.Kind == "archive"`. -/
def fileMatches (hostOS goArch : String) (f : GoFile) : Bool :=
  f.os == hostOS && f.arch == goArch && f.kind == "archive"

/-- The per-entry condition of the requested-version loop:
`strings.TrimPrefix(v.Version, "go") == targetVer`. -/
def versionMatches (v : GoVersionInfo) (targetVer : String) : Bool :=
  goTrimLeading v.version "go" == targetVer

/-- Model of `fmt.Sprintf("https://go.dev/dl/%s", file.Filename)`. -/
def downloadURLFor (f : GoFile) : String :=
  "https://go.dev/dl/" ++ f.filename

/-- Model of the synthesized-URL template
`fmt.Sprintf("https://go.dev/dl/go%s.%s-%s.tar.gz", ver, GOOS, goArch)`. -/
def synthesizedURL (ver hostOS goArch : String) : String :=
  "https://go.dev/dl/go" ++ ver ++ "." ++ hostOS ++ "-" ++ goArch ++ ".tar.gz"

/-- The abbreviation rule at the top of the requested-version loop:
`if strings.Count(targetVer, ".") == 1 { targetVer += ".0" }`. -/
def normalizeTargetVersion (targetVer : String) : String :=
  if countDot targetVer = 1 then targetVer ++ ".0" else targetVer

/-- The latest-stable scan of `main`'s no-version branch: first entry
with `v.Stable` whose file list holds a host match yields
`(TrimPrefix(v.Version, "go"), "https://go.dev/dl/" + filename)`. -/
def findLatestStableDownload (hostOS goArch : String) :
    List GoVersionInfo → Option (String × String)
  | [] => none
  | v :: rest =>
    if v.stable then
      match v.files.find? (fileMatches hostOS goArch) with
      | some f => some (goTrimLeading v.version "go", downloadURLFor f)
      | none => findLatestStableDownload hostOS goArch rest
    else findLatestStableDownload hostOS goArch rest

/-- The requested-version scan of `main`: first entry whose stripped
version equals the normalized target and whose file list holds a host
match; entries that match the version but carry no matching file do not
stop the scan. -/
def findRequestedDownload (hostOS goArch targetVer : String) :
    List GoVersionInfo → Option (String × String)
  | [] => none
  | v :: rest =>
    if versionMatches v targetVer then
      match v.files.find? (fileMatches hostOS goArch) with
      | some f => some (goTrimLeading v.version "go", downloadURLFor f)
      | none => findRequestedDownload hostOS goArch targetVer rest
    else findRequestedDownload hostOS goArch targetVer rest

/-- The catalog search of the requested-version branch, guarded by
`if allVersions != nil`. -/
def catalogLookup (allVersions : Option (List GoVersionInfo))
    (hostOS goArch targetVer : String) : Option (String × String) :=
  match allVersions with
  | none => none
  | some vs => findRequestedDownload hostOS goArch targetVer vs

/-- The catalog side of the no-version branch. -/
def catalogLatest (allVersions : Option (List GoVersionInfo))
    (hostOS goArch : String) : Option (String × String) :=
  match allVersions with
  | none => none
  | some vs => findLatestStableDownload hostOS goArch vs

/-- Outcome of version resolution: the `(versionToInstall, downloadURL)`
pair together with whether the plaintext fallback's answer was used, or
the fatal abort (`os.Exit(1)`). -/
inductive ResolveResult where
  | ok (version url : String) (usedTextFallback : Bool)
  | fatal
deriving DecidableEq

/-- Model of the requested-version branch of `main`
(`len(targetVersions) > 0`).  The loop body unconditionally ends in
`break`: a catalog hit breaks, and the no-hit arm synthesizes a URL for
the current (first) candidate and also breaks, so candidates after the
first are never examined — visible here in the wildcard tail pattern.
The text-fallback endpoint is not an input: this branch of the source
never calls `getLatestGoVersionFromTextHTTP`.  The trailing
`if !foundDownloadable { os.Exit(1) }` is reachable only with an empty
candidate list. -/
def resolveRequestedVersions (targets : List String)
    (allVersions : Option (List GoVersionInfo)) (hostOS goArch : String) :
    ResolveResult :=
  match targets with
  | [] => .fatal
  | t :: _ =>
    match catalogLookup allVersions hostOS goArch (normalizeTargetVersion t) with
    | some (v, url) => .ok v url false
    | none =>
      .ok (normalizeTargetVersion t)
        (synthesizedURL (normalizeTargetVersion t) hostOS goArch) false

/-- Model of the no-version branch of `main`: prefer the catalog's first
stable host match; otherwise (`!foundDownloadable || downloadURL == ""`)
consult the plaintext endpoint, synthesizing the URL from its answer;
if that call failed, abort. -/
def resolveLatestVersion (allVersions : Option (List GoVersionInfo))
    (textFallback : Option String) (hostOS goArch : String) : ResolveResult :=
  match catalogLatest allVersions hostOS goArch with
  | some (v, url) =>
    if url = "" then
      match textFallback with
      | some latestVer =>
        .ok latestVer (synthesizedURL latestVer hostOS goArch) true
      | none => .fatal
    else .ok v url false
  | none =>
    match textFallback with
    | some latestVer =>
      .ok latestVer (synthesizedURL latestVer hostOS goArch) true
    | none => .fatal

/-! ## PATH configuration (source: `configureUserPath` and the
system-wide branch inline in `main`)

Only the content of the target profile file matters to the claims, so a
profile is modelled as `Option String` (`none` when the file does not
exist).  Both branches share the same content-level behaviour: create
the file with the export line when absent, skip the write when the bin
path already occurs in the content, append `"\n" + line + "\n"`
otherwise.  I/O failures (create, read, open, write) never modify the
file in the source — they print a warning and degrade to manual
instructions (user branch) or fall back to the user branch (system
branch) — so they are outside this content model. -/

/-- Model of the export line `fmt.Sprintf("export PATH=\"%s:$PATH\"",
goBinPath)` written by both configuration branches. -/
def exportLine (goBin : String) : String :=
  "export PATH=\"" ++ goBin ++ ":$PATH\""

/-- Model of `goBinPath := filepath.Join(installPath, "bin")`. -/
def goBinPathOf (installPath : String) : String :=
  goJoin installPath "bin"

/-- Model of `configureUserPath(homeDir, installPath)` acting on the
content of `~/.profile`. -/
def configureUserPath (installPath : String) : Option String → Option String
  | none => some (exportLine (goBinPathOf installPath) ++ "\n")
  | some content =>
    if goContains content (goBinPathOf installPath) then some content
    else some (content ++ "\n" ++ exportLine (goBinPathOf installPath) ++ "\n")

/-- Model of the system-wide branch of `main` acting on the content of
`/etc/profile.d/go.sh` (the source duplicates the user-branch logic). -/
def configureSystemGoProfile (installPath : String) : Option String → Option String
  | none => some (exportLine (goBinPathOf installPath) ++ "\n")
  | some content =>
    if goContains content (goBinPathOf installPath) then some content
    else some (content ++ "\n" ++ exportLine (goBinPathOf installPath) ++ "\n")

/-! ## Cleanup-then-extract sequencing in `main`

`main` stats the install path, calls `os.RemoveAll` when something is
there, and on a removal error prints
`Error: Failed to clean up old installation directory` — but does not
exit: control falls through to `extractTarGz` regardless. -/

/-- Environment of the cleanup step: whether prior contents exist at the
install path and whether `os.RemoveAll` fails on them. -/
structure CleanupEnv where
  priorInstallExists : Bool
  removeAllFails : Bool
deriving DecidableEq

/-- State observed at the moment extraction is entered. -/
structure PreExtractState where
  reachedExtraction : Bool
  staleContentsRemain : Bool
deriving DecidableEq

/-- Model of the cleanup step of `main` followed by entry into
extraction: a stat hit triggers `os.RemoveAll`; a removal failure is
printed and then ignored; extraction is entered in every case. -/
def cleanupThenExtract (env : CleanupEnv) : PreExtractState :=
  if env.priorInstallExists then
    if env.removeAllFails then
      { reachedExtraction := true, staleContentsRemain := true }
    else
      { reachedExtraction := true, staleContentsRemain := false }
  else
    { reachedExtraction := true, staleContentsRemain := false }

/-! ## Helper lemmas -/

/-- A list is a prefix of itself followed by anything. -/
theorem listStartsWith_self_append (n r : List Char) :
    listStartsWith n (n ++ r) = true := by
  induction n with
  | nil => rfl
  | cons a as ih => simp [listStartsWith, ih]

/-- A prefix occurrence is an occurrence. -/
theorem listContainsSub_of_startsWith (n h : List Char)
    (hp : listStartsWith n h = true) : listContainsSub n h = true := by
  cases h with
  | nil => simpa [listContainsSub] using hp
  | cons b tl => simp [listContainsSub, hp]

/-- A list occurs in any list that embeds it contiguously. -/
theorem listContainsSub_append_middle (l n r : List Char) :
    listContainsSub n (l ++ n ++ r) = true := by
  induction l with
  | nil =>
    exact listContainsSub_of_startsWith n (n ++ r) (listStartsWith_self_append n r)
  | cons c l' ih =>
    show listContainsSub n (c :: (l' ++ n ++ r)) = true
    unfold listContainsSub
    rw [ih]
    simp

/-- `goContains` holds whenever the needle's characters occur
contiguously in the haystack's characters. -/
theorem goContains_of_data (s sub : String) (l r : List Char)
    (h : s.data = l ++ sub.data ++ r) : goContains s sub = true := by
  unfold goContains
  rw [h]
  exact listContainsSub_append_middle l sub.data r

/-- The export line written by the configurator contains the bin path. -/
theorem goContains_exportLine_block (x y g : String) :
    goContains (x ++ exportLine g ++ y) g = true := by
  apply goContains_of_data _ _ (x.data ++ ("export PATH=\"" : String).data)
    ((":$PATH\"" : String).data ++ y.data)
  unfold exportLine
  simp only [String.data_append, List.append_assoc]

/-- Every filesystem effect performed by `extractTarGz` touches a path
that has `destDir + "/"` as a prefix: effects are only emitted for
entries that passed the security check, at exactly the checked target. -/
theorem extract_effects_stay_inside (entries : List TarHeader) (destDir : String) :
    ∀ existing eff, eff ∈ (extractTarGz entries destDir existing).1 →
      goStartsWith eff.path (destDir ++ "/") = true := by
  induction entries with
  | nil =>
    intro existing eff hmem
    simp [extractTarGz] at hmem
  | cons hd rest ih =>
    intro existing eff hmem
    unfold extractTarGz at hmem
    by_cases hc : goStartsWith (goJoin destDir hd.name) (destDir ++ "/") = true
    · rw [if_pos hc] at hmem
      cases htf : hd.typeflag <;> rw [htf] at hmem
      · by_cases hex : existing.contains (goJoin destDir hd.name) = true
        · rw [if_pos hex] at hmem
          simp only [prependEff, List.mem_cons] at hmem
          rcases hmem with rfl | hmem
          · simpa [FSEffect.path] using hc
          · exact ih _ _ hmem
        · rw [if_neg hex] at hmem
          simp only [prependEff, List.mem_cons] at hmem
          rcases hmem with rfl | hmem
          · simpa [FSEffect.path] using hc
          · exact ih _ _ hmem
      · simp only [prependEff, List.mem_cons] at hmem
        rcases hmem with rfl | hmem
        · simpa [FSEffect.path] using hc
        · exact ih _ _ hmem
      · exact ih _ _ hmem
    · rw [if_neg hc] at hmem
      simp at hmem

/-- If some entry's joined target escapes the destination, extraction
reports an error (the first escaping entry trips the security check, and
nothing before it can succeed past the end of the list). -/
theorem extract_errors_on_escape (entries : List TarHeader) (destDir : String) :
    ∀ existing,
      (∃ e ∈ entries, goStartsWith (goJoin destDir e.name) (destDir ++ "/") = false) →
      (extractTarGz entries destDir existing).2 ≠ none := by
  induction entries with
  | nil =>
    intro existing hex
    rcases hex with ⟨e, he, _⟩
    simp at he
  | cons hd rest ih =>
    intro existing hex
    rcases hex with ⟨e, he, hbad⟩
    unfold extractTarGz
    by_cases hc : goStartsWith (goJoin destDir hd.name) (destDir ++ "/") = true
    · rw [if_pos hc]
      have herest : e ∈ rest := by
        rcases List.mem_cons.mp he with rfl | h
        · rw [hbad] at hc; exact absurd hc (by simp)
        · exact h
      have hexr : ∃ e ∈ rest,
          goStartsWith (goJoin destDir e.name) (destDir ++ "/") = false :=
        ⟨e, herest, hbad⟩
      cases htf : hd.typeflag
      · by_cases hexist : existing.contains (goJoin destDir hd.name) = true
        · rw [if_pos hexist]
          simpa [prependEff] using ih _ hexr
        · rw [if_neg hexist]
          simpa [prependEff] using ih _ hexr
      · simpa [prependEff] using ih _ hexr
      · exact ih _ hexr
    · rw [if_neg hc]
      simp

/-- A catalog download URL is never the empty string (it extends the
literal `https://go.dev/dl/`). -/
theorem downloadURLFor_ne_empty (f : GoFile) : downloadURLFor f ≠ "" := by
  unfold downloadURLFor
  intro h
  have h2 : ("https://go.dev/dl/" ++ f.filename).data = ("" : String).data := by
    rw [h]
  rw [String.data_append] at h2
  simp at h2

/-- If some stable entry of `vs` carries a host-matching archive file,
the latest-stable scan succeeds, returning the stripped version and
catalog filename URL of such a stable entry. -/
theorem findLatestStableDownload_of_exists (hostOS goArch : String)
    (vs : List GoVersionInfo)
    (h : ∃ v ∈ vs, v.stable = true ∧
        ∃ f ∈ v.files, fileMatches hostOS goArch f = true) :
    ∃ v ∈ vs, v.stable = true ∧ ∃ f ∈ v.files, fileMatches hostOS goArch f = true ∧
      findLatestStableDownload hostOS goArch vs
        = some (goTrimLeading v.version "go", downloadURLFor f) := by
  induction vs with
  | nil =>
    rcases h with ⟨v, hv, _⟩
    simp at hv
  | cons v rest ih =>
    by_cases hs : v.stable = true
    · cases hf : v.files.find? (fileMatches hostOS goArch) with
      | some f =>
        refine ⟨v, List.mem_cons_self v rest, hs,
          f, List.mem_of_find?_eq_some hf, List.find?_some hf, ?_⟩
        unfold findLatestStableDownload
        rw [if_pos hs, hf]
      | none =>
        have hrest : ∃ w ∈ rest, w.stable = true ∧
            ∃ g ∈ w.files, fileMatches hostOS goArch g = true := by
          rcases h with ⟨w, hw, hws, g, hg, hgm⟩
          rcases List.mem_cons.mp hw with rfl | hwr
          · exact absurd hgm (by simpa using List.find?_eq_none.mp hf g hg)
          · exact ⟨w, hwr, hws, g, hg, hgm⟩
        rcases ih hrest with ⟨w, hw, hws, g, hg, hgm, heq⟩
        refine ⟨w, List.mem_cons_of_mem v hw, hws, g, hg, hgm, ?_⟩
        unfold findLatestStableDownload
        rw [if_pos hs, hf]
        exact heq
    · have hrest : ∃ w ∈ rest, w.stable = true ∧
          ∃ g ∈ w.files, fileMatches hostOS goArch g = true := by
        rcases h with ⟨w, hw, hws, g, hg, hgm⟩
        rcases List.mem_cons.mp hw with rfl | hwr
        · exact absurd hws hs
        · exact ⟨w, hwr, hws, g, hg, hgm⟩
      rcases ih hrest with ⟨w, hw, hws, g, hg, hgm, heq⟩
      refine ⟨w, List.mem_cons_of_mem v hw, hws, g, hg, hgm, ?_⟩
      unfold findLatestStableDownload
      rw [if_neg hs]
      exact heq

end Go2V

/-! ## Claim theorems -/

/-- C1: path-traversal protection in `extractTarGz`.  If any archive
entry's joined path `target = Join(destDir, name)` does not have
`destDir + "/"` (destination plus path separator) as a prefix, extraction
returns the `illegal file path` error rather than succeeding; and every
filesystem effect extraction ever performs — for this or any archive —
is at a path lying under `destDir + "/"`, so no entry whose joined path
escapes the destination is ever written. -/
theorem extractTarGz_rejects_path_traversal
    (entries : List Go2V.TarHeader) (destDir : String) (existing : List String)
    (h : ∃ e ∈ entries,
      Go2V.goStartsWith (Go2V.goJoin destDir e.name) (destDir ++ "/") = false) :
    (Go2V.extractTarGz entries destDir existing).2 ≠ none ∧
    ∀ eff ∈ (Go2V.extractTarGz entries destDir existing).1,
      Go2V.goStartsWith eff.path (destDir ++ "/") = true :=
  ⟨Go2V.extract_errors_on_escape entries destDir existing h,
   fun eff hm => Go2V.extract_effects_stay_inside entries destDir existing eff hm⟩

/-- Witness for C1: the crafted entry name `../../evil` against
destination `/usr/local` joins to `/evil`, fails the prefix check, and
extraction errors without writing anything. -/
theorem extractTarGz_rejects_path_traversal_witness :
    (∃ e ∈ [(⟨"../../evil", Go2V.TarTypeFlag.reg, 420⟩ : Go2V.TarHeader)],
      Go2V.goStartsWith (Go2V.goJoin "/usr/local" e.name) ("/usr/local" ++ "/") = false) ∧
    ((Go2V.extractTarGz [⟨"../../evil", Go2V.TarTypeFlag.reg, 420⟩] "/usr/local" []).2 ≠ none ∧
     ∀ eff ∈ (Go2V.extractTarGz [⟨"../../evil", Go2V.TarTypeFlag.reg, 420⟩] "/usr/local" []).1,
       Go2V.goStartsWith eff.path ("/usr/local" ++ "/") = true) :=
  ⟨by decide,
   extractTarGz_rejects_path_traversal
     [⟨"../../evil", Go2V.TarTypeFlag.reg, 420⟩] "/usr/local" [] (by decide)⟩

/-- C7 counterexample: the claim says an entry whose type is neither
directory nor regular file is always skipped silently with no error, but
the security check runs before the type switch: a non-regular entry
(e.g. a symlink) named `../evil` makes `extractTarGz` return the
`illegal file path` error instead of being silently skipped. -/
theorem extractTarGz_symlink_escape_errors :
    Go2V.extractTarGz [⟨"../evil", Go2V.TarTypeFlag.other, 0⟩] "/usr/local" []
      = ([], some "illegal file path: /usr/evil") := by
  decide

/-- C7 amended: every archive entry whose type is neither directory nor
regular file **and whose joined path passes the containment check** is
silently skipped: extraction continues with the remaining entries with
no effect and no error contributed by that entry. -/
theorem extractTarGz_skips_other_types
    (e : Go2V.TarHeader) (rest : List Go2V.TarHeader) (destDir : String)
    (existing : List String) (htype : e.typeflag = Go2V.TarTypeFlag.other)
    (hin : Go2V.goStartsWith (Go2V.goJoin destDir e.name) (destDir ++ "/") = true) :
    Go2V.extractTarGz (e :: rest) destDir existing
      = Go2V.extractTarGz rest destDir existing := by
  conv_lhs => unfold Go2V.extractTarGz
  rw [if_pos hin, htype]

/-- Witness for C7 (amended) at a concrete in-bounds non-regular entry. -/
theorem extractTarGz_skips_other_types_witness :
    (⟨"go/bin/gofmt", Go2V.TarTypeFlag.other, 511⟩ : Go2V.TarHeader).typeflag
        = Go2V.TarTypeFlag.other ∧
    Go2V.goStartsWith (Go2V.goJoin "/usr/local" "go/bin/gofmt") ("/usr/local" ++ "/") = true ∧
    Go2V.extractTarGz [⟨"go/bin/gofmt", Go2V.TarTypeFlag.other, 511⟩,
        ⟨"go", Go2V.TarTypeFlag.dir, 493⟩] "/usr/local" []
      = Go2V.extractTarGz [⟨"go", Go2V.TarTypeFlag.dir, 493⟩] "/usr/local" [] :=
  ⟨by decide, by decide,
   extractTarGz_skips_other_types
     ⟨"go/bin/gofmt", Go2V.TarTypeFlag.other, 511⟩
     [⟨"go", Go2V.TarTypeFlag.dir, 493⟩] "/usr/local" [] (by decide) (by decide)⟩

/-- C2: in latest-version resolution, a catalog holding a stable entry
with a host-matching archive file yields that artifact's catalog
filename URL, for every possible state of the plaintext fallback (so the
fallback's answer is never used: the flag is `false` and the result does
not depend on it); and when the catalog yields no stable match and the
plaintext fallback call fails, resolution is fatal. -/
theorem resolveLatestVersion_prefers_catalog
    (vs : List Go2V.GoVersionInfo) (hostOS goArch : String)
    (allVersions : Option (List Go2V.GoVersionInfo))
    (hstable : ∃ v ∈ vs, v.stable = true ∧
        ∃ f ∈ v.files, Go2V.fileMatches hostOS goArch f = true)
    (hnomatch : Go2V.catalogLatest allVersions hostOS goArch = none) :
    (∃ v ∈ vs, v.stable = true ∧ ∃ f ∈ v.files,
        Go2V.fileMatches hostOS goArch f = true ∧
        ∀ textFallback : Option String,
          Go2V.resolveLatestVersion (some vs) textFallback hostOS goArch
            = .ok (Go2V.goTrimLeading v.version "go") (Go2V.downloadURLFor f) false) ∧
    Go2V.resolveLatestVersion allVersions none hostOS goArch = .fatal := by
  constructor
  · rcases Go2V.findLatestStableDownload_of_exists hostOS goArch vs hstable with
      ⟨v, hv, hvs, f, hf, hfm, heq⟩
    refine ⟨v, hv, hvs, f, hf, hfm, fun tf => ?_⟩
    simp only [Go2V.resolveLatestVersion, Go2V.catalogLatest, heq]
    rw [if_neg (Go2V.downloadURLFor_ne_empty f)]
  · simp only [Go2V.resolveLatestVersion, hnomatch]

/-- Witness for C2 at a one-entry stable catalog and a failed catalog
fetch on the fatal side. -/
theorem resolveLatestVersion_prefers_catalog_witness :
    (∃ v ∈ [(⟨"go1.22.2", true,
        [⟨"go1.22.2.linux-amd64.tar.gz", "linux", "amd64", "", 0, "archive"⟩]⟩ :
        Go2V.GoVersionInfo)], v.stable = true ∧
      ∃ f ∈ v.files, Go2V.fileMatches "linux" "amd64" f = true) ∧
    Go2V.catalogLatest none "linux" "amd64" = none ∧
    ((∃ v ∈ [(⟨"go1.22.2", true,
        [⟨"go1.22.2.linux-amd64.tar.gz", "linux", "amd64", "", 0, "archive"⟩]⟩ :
        Go2V.GoVersionInfo)], v.stable = true ∧ ∃ f ∈ v.files,
        Go2V.fileMatches "linux" "amd64" f = true ∧
        ∀ textFallback : Option String,
          Go2V.resolveLatestVersion
              (some [⟨"go1.22.2", true,
                [⟨"go1.22.2.linux-amd64.tar.gz", "linux", "amd64", "", 0, "archive"⟩]⟩])
              textFallback "linux" "amd64"
            = .ok (Go2V.goTrimLeading v.version "go") (Go2V.downloadURLFor f) false) ∧
     Go2V.resolveLatestVersion none none "linux" "amd64" = .fatal) :=
  ⟨by decide, by decide,
   resolveLatestVersion_prefers_catalog
     [⟨"go1.22.2", true,
       [⟨"go1.22.2.linux-amd64.tar.gz", "linux", "amd64", "", 0, "archive"⟩]⟩]
     "linux" "amd64" none (by decide) (by decide)⟩

/-- C3 counterexample: for the supplied version `1.22` (one dot) and no
catalog, the resolver returns the normalized string `1.22.0` — not the
supplied string `1.22` — in both the version field and the synthesized
URL. -/
theorem resolveRequested_returns_normalized_cex :
    Go2V.resolveRequestedVersions ["1.22"] none "linux" "amd64"
      = .ok "1.22.0" "https://go.dev/dl/go1.22.0.linux-amd64.tar.gz" false ∧
    ("1.22.0" : String) ≠ "1.22" := by
  exact ⟨by decide, by decide⟩

/-- C3 amended: when no catalog entry and artifact match the normalized
requested version for the host (including a nil catalog), the resolver
does not fail: it returns the **normalized** supplied version string
together with the synthesized URL built from it, and it never consults
the plaintext fallback (which is not even an input of this branch). -/
theorem resolveRequested_synthesizes_url
    (t : String) (rest : List String)
    (allVersions : Option (List Go2V.GoVersionInfo)) (hostOS goArch : String)
    (hnone : Go2V.catalogLookup allVersions hostOS goArch
        (Go2V.normalizeTargetVersion t) = none) :
    Go2V.resolveRequestedVersions (t :: rest) allVersions hostOS goArch
      = .ok (Go2V.normalizeTargetVersion t)
          (Go2V.synthesizedURL (Go2V.normalizeTargetVersion t) hostOS goArch)
          false := by
  simp only [Go2V.resolveRequestedVersions, hnone]

/-- Witness for C3 (amended): the spec's own scenario, requested version
`1.21.0` with an unreachable catalog. -/
theorem resolveRequested_synthesizes_url_witness :
    Go2V.catalogLookup none "linux" "amd64"
        (Go2V.normalizeTargetVersion "1.21.0") = none ∧
    Go2V.resolveRequestedVersions ["1.21.0"] none "linux" "amd64"
      = .ok (Go2V.normalizeTargetVersion "1.21.0")
          (Go2V.synthesizedURL (Go2V.normalizeTargetVersion "1.21.0") "linux" "amd64")
          false :=
  ⟨by decide,
   resolveRequested_synthesizes_url "1.21.0" [] none "linux" "amd64" (by decide)⟩

/-- C4 counterexample: with candidates `["9.9.9", "1.22.2"]` and a
catalog carrying `1.22.2` for the host, the claim says the later
candidate's catalog match is installed; the code instead synthesizes a
URL for the unmatched first candidate and never examines the second. -/
theorem resolveRequested_ignores_later_candidates_cex :
    Go2V.resolveRequestedVersions ["9.9.9", "1.22.2"]
        (some [⟨"go1.22.2", true,
          [⟨"go1.22.2.linux-amd64.tar.gz", "linux", "amd64", "", 0, "archive"⟩]⟩])
        "linux" "amd64"
      = .ok "9.9.9" "https://go.dev/dl/go9.9.9.linux-amd64.tar.gz" false ∧
    Go2V.resolveRequestedVersions ["9.9.9", "1.22.2"]
        (some [⟨"go1.22.2", true,
          [⟨"go1.22.2.linux-amd64.tar.gz", "linux", "amd64", "", 0, "archive"⟩]⟩])
        "linux" "amd64"
      ≠ .ok "1.22.2" "https://go.dev/dl/go1.22.2.linux-amd64.tar.gz" false := by
  exact ⟨by decide, by decide⟩

/-- C4 amended: only the first supplied candidate is ever considered —
the loop body always breaks, either on a catalog hit for the first
candidate or after synthesizing a URL for it, so resolution of a
multi-candidate list coincides with resolution of its first candidate
alone and later candidates are never examined. -/
theorem resolveRequested_first_candidate_only
    (t : String) (rest : List String)
    (allVersions : Option (List Go2V.GoVersionInfo)) (hostOS goArch : String) :
    Go2V.resolveRequestedVersions (t :: rest) allVersions hostOS goArch
      = Go2V.resolveRequestedVersions [t] allVersions hostOS goArch := rfl

/-- C5: a requested version with exactly one dot is normalized by
appending `.0` before catalog lookup, and a catalog entry matches the
normalized request exactly when its version string with the fixed `go`
prefix stripped equals the normalized string. -/
theorem normalize_and_strip_version_match (s : String) (v : Go2V.GoVersionInfo)
    (h : Go2V.countDot s = 1) :
    Go2V.normalizeTargetVersion s = s ++ ".0" ∧
    (Go2V.versionMatches v (Go2V.normalizeTargetVersion s) = true ↔
      Go2V.goTrimLeading v.version "go" = s ++ ".0") := by
  have h1 : Go2V.normalizeTargetVersion s = s ++ ".0" := by
    unfold Go2V.normalizeTargetVersion
    rw [if_pos h]
  refine ⟨h1, ?_⟩
  rw [h1]
  unfold Go2V.versionMatches
  exact beq_iff_eq

/-- Witness for C5 at the spec's own example `1.22` against the catalog
entry `go1.22.0`. -/
theorem normalize_and_strip_version_match_witness :
    Go2V.countDot "1.22" = 1 ∧
    (Go2V.normalizeTargetVersion "1.22" = "1.22" ++ ".0" ∧
     (Go2V.versionMatches ⟨"go1.22.0", true, []⟩
        (Go2V.normalizeTargetVersion "1.22") = true ↔
      Go2V.goTrimLeading ("go1.22.0" : String) "go" = "1.22" ++ ".0")) :=
  ⟨by decide,
   normalize_and_strip_version_match "1.22" ⟨"go1.22.0", true, []⟩ (by decide)⟩

/-- C6: PATH configuration is idempotent in both the user-scoped and the
system-wide branch: a profile whose content already contains the bin
path is returned unchanged (no write), and applying configuration twice
yields the same content as applying it once, for every starting profile
state including a missing file. -/
theorem configurePath_idempotent (installPath content : String)
    (h : Go2V.goContains content (Go2V.goBinPathOf installPath) = true) :
    Go2V.configureUserPath installPath (some content) = some content ∧
    Go2V.configureSystemGoProfile installPath (some content) = some content ∧
    ∀ profile : Option String,
      Go2V.configureUserPath installPath
          (Go2V.configureUserPath installPath profile)
        = Go2V.configureUserPath installPath profile ∧
      Go2V.configureSystemGoProfile installPath
          (Go2V.configureSystemGoProfile installPath profile)
        = Go2V.configureSystemGoProfile installPath profile := by
  have hskip : ∀ c : String,
      Go2V.goContains c (Go2V.goBinPathOf installPath) = true →
      Go2V.configureUserPath installPath (some c) = some c := by
    intro c hc
    simp only [Go2V.configureUserPath]
    rw [if_pos hc]
  have hskipS : ∀ c : String,
      Go2V.goContains c (Go2V.goBinPathOf installPath) = true →
      Go2V.configureSystemGoProfile installPath (some c) = some c := by
    intro c hc
    simp only [Go2V.configureSystemGoProfile]
    rw [if_pos hc]
  have hnew : Go2V.goContains
      (Go2V.exportLine (Go2V.goBinPathOf installPath) ++ "\n")
      (Go2V.goBinPathOf installPath) = true := by
    have := Go2V.goContains_exportLine_block ""
      "\n" (Go2V.goBinPathOf installPath)
    simpa using this
  have happ : ∀ c : String, Go2V.goContains
      (c ++ "\n" ++ Go2V.exportLine (Go2V.goBinPathOf installPath) ++ "\n")
      (Go2V.goBinPathOf installPath) = true := by
    intro c
    exact Go2V.goContains_exportLine_block (c ++ "\n") "\n"
      (Go2V.goBinPathOf installPath)
  refine ⟨hskip content h, hskipS content h, ?_⟩
  intro profile
  constructor
  · cases profile with
    | none =>
      show Go2V.configureUserPath installPath
        (some (Go2V.exportLine (Go2V.goBinPathOf installPath) ++ "\n")) = _
      exact hskip _ hnew
    | some c =>
      by_cases hc : Go2V.goContains c (Go2V.goBinPathOf installPath) = true
      · rw [hskip c hc]
        exact hskip c hc
      · have hstep : Go2V.configureUserPath installPath (some c)
            = some (c ++ "\n" ++ Go2V.exportLine (Go2V.goBinPathOf installPath) ++ "\n") := by
          simp only [Go2V.configureUserPath]
          rw [if_neg hc]
        rw [hstep]
        exact hskip _ (happ c)
  · cases profile with
    | none =>
      show Go2V.configureSystemGoProfile installPath
        (some (Go2V.exportLine (Go2V.goBinPathOf installPath) ++ "\n")) = _
      exact hskipS _ hnew
    | some c =>
      by_cases hc : Go2V.goContains c (Go2V.goBinPathOf installPath) = true
      · rw [hskipS c hc]
        exact hskipS c hc
      · have hstep : Go2V.configureSystemGoProfile installPath (some c)
            = some (c ++ "\n" ++ Go2V.exportLine (Go2V.goBinPathOf installPath) ++ "\n") := by
          simp only [Go2V.configureSystemGoProfile]
          rw [if_neg hc]
        rw [hstep]
        exact hskipS _ (happ c)

/-- Witness for C6 at a concrete profile that already carries the bin
path. -/
theorem configurePath_idempotent_witness :
    Go2V.goContains "export PATH=\"/root/.local/go/bin:$PATH\"\n"
        (Go2V.goBinPathOf "/root/.local/go") = true ∧
    (Go2V.configureUserPath "/root/.local/go"
        (some "export PATH=\"/root/.local/go/bin:$PATH\"\n")
      = some "export PATH=\"/root/.local/go/bin:$PATH\"\n" ∧
     Go2V.configureSystemGoProfile "/root/.local/go"
        (some "export PATH=\"/root/.local/go/bin:$PATH\"\n")
      = some "export PATH=\"/root/.local/go/bin:$PATH\"\n" ∧
     ∀ profile : Option String,
       Go2V.configureUserPath "/root/.local/go"
           (Go2V.configureUserPath "/root/.local/go" profile)
         = Go2V.configureUserPath "/root/.local/go" profile ∧
       Go2V.configureSystemGoProfile "/root/.local/go"
           (Go2V.configureSystemGoProfile "/root/.local/go" profile)
         = Go2V.configureSystemGoProfile "/root/.local/go" profile) :=
  ⟨by decide,
   configurePath_idempotent "/root/.local/go"
     "export PATH=\"/root/.local/go/bin:$PATH\"\n" (by decide)⟩

/-- C8: evaluation of the cleanup-then-extract sequencing of `main` at
the failing environment — prior contents exist at the install path and
`os.RemoveAll` fails on them.  The run still reaches extraction, and
stale prior-install contents remain at the install path when extraction
begins, contradicting the claim that extraction never starts while stale
contents remain; the source prints the `Error:` diagnostic for the
failed removal but, unlike every fatal `Error:` site, does not exit. -/
theorem cleanup_failure_still_reaches_extraction :
    (Go2V.cleanupThenExtract ⟨true, true⟩).reachedExtraction = true ∧
    (Go2V.cleanupThenExtract ⟨true, true⟩).staleContentsRemain = true := by
  exact ⟨by decide, by decide⟩

/-- C9: `mapArchitecture` is a pure total function: the documented aliases
map (case-insensitively) to canonical names, any input whose lower-casing
is not in the alias table passes through unchanged, the result is never
empty for non-empty input, and hence the fatal-abort guard in `main` for
an unmappable non-empty detected architecture never fires. -/
theorem mapArchitecture_total_passthrough (s : String) (hne : s ≠ "") :
    Go2V.mapArchitecture "x86_64" = "amd64" ∧
    Go2V.mapArchitecture "X86_64" = "amd64" ∧
    Go2V.mapArchitecture "aarch64" = "arm64" ∧
    Go2V.mapArchitecture "AArch64" = "arm64" ∧
    Go2V.mapArchitecture "armv7l" = "arm" ∧
    (Go2V.goToLower s ∉ Go2V.knownArchAliases → Go2V.mapArchitecture s = s) ∧
    Go2V.mapArchitecture s ≠ "" ∧
    Go2V.mainArchAbort s = false := by
  have hne' : Go2V.mapArchitecture s ≠ "" := by
    unfold Go2V.mapArchitecture
    split_ifs <;> first | decide | exact hne
  refine ⟨by decide, by decide, by decide, by decide, by decide, ?_, hne', ?_⟩
  · intro hmem
    simp only [Go2V.knownArchAliases, List.mem_cons, List.not_mem_nil,
      or_false, not_or] at hmem
    unfold Go2V.mapArchitecture
    split_ifs <;> first | rfl | tauto
  · unfold Go2V.mainArchAbort
    simpa using hne'

/-- Witness for C9 at the concrete unmapped architecture "riscv64". -/
theorem mapArchitecture_total_passthrough_witness :
    ("riscv64" : String) ≠ "" ∧
    (Go2V.goToLower "riscv64" ∉ Go2V.knownArchAliases →
      Go2V.mapArchitecture "riscv64" = "riscv64") ∧
    Go2V.mapArchitecture "riscv64" ≠ "" := by
  have h := mapArchitecture_total_passthrough "riscv64" (by decide)
  exact ⟨by decide, h.2.2.2.2.2.1, h.2.2.2.2.2.2.1⟩
